import Mathlib

/-!
Shallow embedding of the `wasmi` function translator core.

The embedding follows the source files:
  - `wasmi_v1/src/engine/func_builder/mod.rs` (`FunctionBuilder` and its
    `translate_*` methods),
  - `wasmi_v1/src/engine/func_builder/control_stack.rs` (`ControlFlowStack`),
  - `wasmi_v1/src/func/caller.rs` (`Caller`),
  - `wasmi_v1/src/engine/inner/execute/tests/mod.rs` (end-to-end expectations).

Components of the repository that are declared but whose implementation files
are not part of the provided sources (`inst_builder.rs`, `control_frame.rs`,
the execution loop, the trap codes) are modelled from the specification
document; each such definition carries a doc comment starting with
`Modelled from the spec:`.

Rust `usize`/`u32` indices are modelled as `Nat`; `i32`/`i64` machine words
are modelled as `Nat` with explicit reduction modulo `2 ^ 32` / `2 ^ 64`
where overflow matters. Rust panics are modelled by `Option`/no-op results,
noted at each definition.
-/

namespace Wasmi

/-- Index of an instruction in the instruction stream (`InstructionIdx`). -/
abbrev InstructionIdx := Nat

/-- Symbolic label index into the instruction builder's label table
(`LabelIdx`). -/
abbrev LabelIdx := Nat

/-- Sentinel instruction index returned by `try_resolve_label` for a not yet
resolved label; the emitter patches the real index in later via the
relocation table. The concrete value is irrelevant to every theorem below. -/
def invalidPc : InstructionIdx := 2 ^ 32 - 1

/-- The drop/keep metadata attached to branch targets: `drop` operands are
discarded and `keep` operands preserved when the branch is taken. -/
structure DropKeep where
  drop : Nat
  keep : Nat
deriving DecidableEq, Repr

/-- Constructs a `DropKeep` (source: `DropKeep::new(drop, keep)`). -/
def DropKeep.new (drop keep : Nat) : DropKeep := ⟨drop, keep⟩

/-- A branch target: absolute instruction index plus drop/keep metadata. -/
structure Target where
  dstPc : InstructionIdx
  dropKeep : DropKeep
deriving DecidableEq, Repr

/-- Constructs a `Target` (source: `Target::new(dst_pc, drop_keep)`). -/
def Target.new (dstPc : InstructionIdx) (dropKeep : DropKeep) : Target :=
  ⟨dstPc, dropKeep⟩

/-- The internal instruction set; the variants needed by the claims under
scrutiny (control, stack plumbing, and the arithmetic/memory instructions
exercised by the end-to-end scenarios). -/
inductive Instruction where
  | br (target : Target)
  | brIfEqz (target : Target)
  | brIfNez (target : Target)
  | brTable (len : Nat)
  | ret (dropKeep : DropKeep)
  | unreachable
  | localGet (idx : Nat)
  | drop
  | select
  | i32Const (value : Nat)
  | i32Add
  | i64Const (value : Nat)
  | i64Add
  | i64Load8S (offset : Nat)
deriving DecidableEq, Repr

/-- A relocation record: how an emitted use-site of a then-unresolved label
must be patched once the label resolves (`Reloc::Br { inst_idx }` and
`Reloc::BrTable { inst_idx, target_idx }`). -/
inductive Reloc where
  | br (instIdx : InstructionIdx)
  | brTable (instIdx : InstructionIdx) (targetIdx : Nat)
deriving DecidableEq, Repr

/-- The instruction index a relocation patches. -/
def Reloc.site : Reloc → InstructionIdx
  | .br instIdx => instIdx
  | .brTable instIdx _ => instIdx

/-- Modelled from the spec: the `InstructionsBuilder` of
`func_builder/inst_builder.rs`, whose implementation file is not among the
provided sources. Per spec section 4.1 it owns (a) the vector of emitted
instructions, (b) a label table mapping each label to its resolved PC or to
"unresolved", and (c) the list of pending relocations, each tied to the
label it waits on. -/
structure InstructionsBuilder where
  insts : List Instruction
  labels : List (Option InstructionIdx)
  relocs : List (LabelIdx × Reloc)
deriving DecidableEq, Repr

/-- The default (empty) instruction builder (`InstructionsBuilder::default`). -/
def InstructionsBuilder.default : InstructionsBuilder := ⟨[], [], []⟩

namespace InstructionsBuilder

/-- Modelled from the spec: `current_pc()` — the PC where the next
instruction will land. -/
def current_pc (b : InstructionsBuilder) : InstructionIdx :=
  b.insts.length

/-- Modelled from the spec: `new_label()` — allocate a fresh unresolved
label and return its index. -/
def new_label (b : InstructionsBuilder) : LabelIdx × InstructionsBuilder :=
  (b.labels.length, { b with labels := b.labels ++ [none] })

/-- Modelled from the spec: `resolve_label(l)` — bind `l` to the current PC.
The source fails (panics) if `l` is already resolved; that failure branch is
modelled as leaving the builder unchanged, so a resolution can never be
overwritten. -/
def resolve_label (b : InstructionsBuilder) (l : LabelIdx) : InstructionsBuilder :=
  match b.labels.get? l with
  | some none => { b with labels := b.labels.set l (some b.current_pc) }
  | _ => b

/-- Modelled from the spec: `try_resolve_label(l, make_reloc)` — if `l` is
resolved return its PC; otherwise register the given relocation as a user of
`l` and return the sentinel index. -/
def try_resolve_label (b : InstructionsBuilder) (l : LabelIdx) (reloc : Reloc) :
    InstructionIdx × InstructionsBuilder :=
  match b.labels.get? l with
  | some (some pc) => (pc, b)
  | _ => (invalidPc, { b with relocs := b.relocs ++ [(l, reloc)] })

/-- Modelled from the spec: `push_inst(i)` — append the instruction and
return its index. -/
def push_inst (b : InstructionsBuilder) (inst : Instruction) :
    InstructionIdx × InstructionsBuilder :=
  (b.insts.length, { b with insts := b.insts ++ [inst] })

end InstructionsBuilder

/-- Modelled from the spec: the control frame variants of
`func_builder/control_frame.rs`, whose implementation file is not among the
provided sources. Spec section 3: `Block { end_label }`, `Loop
{ header_label }`, `If { else_label, end_label }`, `Else { end_label }`.
The field names `end_label`, `header`, `else_label` follow the uses in
`func_builder/mod.rs`. -/
inductive ControlFrame where
  | block (endLabel : LabelIdx)
  | loop (header : LabelIdx)
  | ifFrame (elseLabel : LabelIdx) (endLabel : LabelIdx)
  | elseFrame (endLabel : LabelIdx)
deriving DecidableEq, Repr

/-- The stack of control flow frames (`control_stack.rs`). The bottom of the
stack is the head of the list, matching `Vec` order: `push` appends at the
end, `first` reads the head. -/
structure ControlFlowStack where
  frames : List ControlFrame
deriving DecidableEq, Repr

/-- The default (empty) control flow stack (`ControlFlowStack::default`). -/
def ControlFlowStack.default : ControlFlowStack := ⟨[]⟩

namespace ControlFlowStack

/-- Returns the current depth of the stack (`ControlFlowStack::len`). -/
def len (s : ControlFlowStack) : Nat :=
  s.frames.length

/-- Pushes a new control flow frame (`ControlFlowStack::push_frame`). -/
def push_frame (s : ControlFlowStack) (frame : ControlFrame) : ControlFlowStack :=
  ⟨s.frames ++ [frame]⟩

/-- Pops the last control flow frame (`ControlFlowStack::pop_frame`).
The source panics on an empty stack; that is modelled by `none`. -/
def pop_frame (s : ControlFlowStack) : Option (ControlFrame × ControlFlowStack) :=
  match s.frames.getLast? with
  | some frame => some (frame, ⟨s.frames.dropLast⟩)
  | none => none

/-- Returns the first control flow frame (`ControlFlowStack::first`); the
source panics on an empty stack, modelled by `none`. -/
def first (s : ControlFlowStack) : Option ControlFrame :=
  s.frames.head?

/-- Returns the last control flow frame (`ControlFlowStack::last_mut`); the
source panics on an empty stack, modelled by `none`. -/
def last_mut (s : ControlFlowStack) : Option ControlFrame :=
  s.frames.getLast?

/-- Returns the control flow frame at the given depth counted from the top
(`ControlFlowStack::nth_back_mut`): `frames.iter_mut().nth_back(depth)`,
i.e. indexing the reversed sequence of frames. The source panics when
`depth` is out of range, modelled by `none`. -/
def nth_back_mut (s : ControlFlowStack) (depth : Nat) : Option ControlFrame :=
  s.frames.reverse.get? depth

end ControlFlowStack

/-- A Wasm value type (`wasmi_core::ValueType`): {I32, I64, F32, F64}. -/
inductive ValueType where
  | i32
  | i64
  | f32
  | f64
deriving DecidableEq, Repr

/-- Modelled from the spec: the translator's shadow value stack
(`func_builder/value_stack.rs`, not among the provided sources): an ordered
sequence of value types. Only its default (empty) value is needed here. -/
structure ValueStack where
  stack : List ValueType
deriving DecidableEq, Repr

/-- The default (empty) shadow value stack (`ValueStack::default`). -/
def ValueStack.default : ValueStack := ⟨[]⟩

/-- Modelled from the spec: a block type (parameters and results); all three
implemented `translate_*` control operators ignore it (underscore binding in
the source). -/
structure BlockType where
  params : List ValueType
  results : List ValueType
deriving DecidableEq, Repr

/-- Index of a function within a module (`FuncIdx`). -/
abbrev FuncIdx := Nat

/-- The function translator (`FunctionBuilder` of `func_builder/mod.rs`).
The `engine` and `res` fields of the source are immutable borrows of the
engine and the module resources; they carry no state touched by any
definition below and are omitted from the embedding. -/
structure FunctionBuilder where
  func : FuncIdx
  control_frames : ControlFlowStack
  value_stack : ValueStack
  inst_builder : InstructionsBuilder
  len_locals : Nat
  max_stack_height : Nat
  reachable : Bool
deriving DecidableEq, Repr

namespace FunctionBuilder

/-- Creates a new `FunctionBuilder` (`FunctionBuilder::new`): every stateful
field takes its `Default` value and `reachable` starts out `true`. -/
def new (func : FuncIdx) : FunctionBuilder where
  func := func
  control_frames := ControlFlowStack.default
  value_stack := ValueStack.default
  inst_builder := InstructionsBuilder.default
  len_locals := 0
  max_stack_height := 0
  reachable := true

/-- Try to resolve the given label (`FunctionBuilder::try_resolve_label`):
captures the current PC, hands it to the relocation provider and defers to
the instruction builder. The relocation provider is the concrete closure
used at each call site, applied to the captured PC. -/
def try_resolve_label (b : FunctionBuilder) (label : LabelIdx)
    (relocProvider : InstructionIdx → Reloc) : InstructionIdx × FunctionBuilder :=
  let pc := b.inst_builder.current_pc
  let (dst, ib) := b.inst_builder.try_resolve_label label (relocProvider pc)
  (dst, { b with inst_builder := ib })

/-- Translates a Wasm `block` operator (`FunctionBuilder::translate_block`):
allocate a fresh end label and push a `Block` frame. The source always
returns `Ok(())`. -/
def translate_block (b : FunctionBuilder) (_blockType : BlockType) : FunctionBuilder :=
  let (endLabel, ib) := b.inst_builder.new_label
  { b with
    inst_builder := ib
    control_frames := b.control_frames.push_frame (.block endLabel) }

/-- Translates a Wasm `loop` operator (`FunctionBuilder::translate_loop`):
allocate a fresh header label, resolve it immediately to the current PC and
push a `Loop` frame. The source always returns `Ok(())`. -/
def translate_loop (b : FunctionBuilder) (_blockType : BlockType) : FunctionBuilder :=
  let (header, ib) := b.inst_builder.new_label
  let ib := ib.resolve_label header
  { b with
    inst_builder := ib
    control_frames := b.control_frames.push_frame (.loop header) }

/-- Translates a Wasm `if` operator (`FunctionBuilder::translate_if`):
allocate fresh else/end labels, push an `If` frame carrying them, then emit
a single `BrIfEqz` to the else label with `DropKeep::new(0, 0)`. The source
always returns `Ok(())`. -/
def translate_if (b : FunctionBuilder) (_blockType : BlockType) : FunctionBuilder :=
  let (elseLabel, ib) := b.inst_builder.new_label
  let (endLabel, ib) := ib.new_label
  let b := { b with
    inst_builder := ib
    control_frames := b.control_frames.push_frame (.ifFrame elseLabel endLabel) }
  let (dstPc, b) := b.try_resolve_label elseLabel (fun pc => Reloc.br pc)
  let branchTarget := Target.new dstPc (DropKeep.new 0 0)
  let (_, ib) := b.inst_builder.push_inst (.brIfEqz branchTarget)
  { b with inst_builder := ib }

end FunctionBuilder

/-- An abstract operation on the instruction builder: the four mutating
operations of spec section 4.1 (`new_label`, `resolve_label`, `push_inst`,
`try_resolve_label`). Used to state that a property of the builder persists
under every later translation step, since each `translate_*` method touches
the builder only through these operations. -/
inductive BuilderOp where
  | newLabel
  | resolveLabel (l : LabelIdx)
  | pushInst (inst : Instruction)
  | tryResolve (l : LabelIdx) (reloc : Reloc)
deriving DecidableEq, Repr

/-- Applies a single builder operation, discarding the returned index. -/
def applyOp (b : InstructionsBuilder) : BuilderOp → InstructionsBuilder
  | .newLabel => b.new_label.2
  | .resolveLabel l => b.resolve_label l
  | .pushInst inst => (b.push_inst inst).2
  | .tryResolve l reloc => (b.try_resolve_label l reloc).2

/-- Applies a sequence of builder operations, first element first. -/
def applyOps (ops : List BuilderOp) (b : InstructionsBuilder) : InstructionsBuilder :=
  ops.foldl applyOp b

/-- Resolution of a label in the builder's label table: `some pc` when the
label is bound to `pc`, `none` when the label is unresolved or out of
range. -/
def labelPc (labels : List (Option InstructionIdx)) (l : LabelIdx) :
    Option InstructionIdx :=
  (labels.get? l).bind id

/-- Rewrites the target of a branch instruction to the given PC; other
instructions are unchanged. This is the in-place patch a relocation
performs once its label has resolved. -/
def patchInst (pc : InstructionIdx) : Instruction → Instruction
  | .br target => .br (Target.new pc target.dropKeep)
  | .brIfEqz target => .brIfEqz (Target.new pc target.dropKeep)
  | .brIfNez target => .brIfNez (Target.new pc target.dropKeep)
  | inst => inst

/-- Applies one relocation: patch the instruction at the relocation's site
with the PC its label resolved to; a relocation whose label is unresolved
patches nothing (this case never occurs on `finish`'s success path). -/
def applyReloc (labels : List (Option InstructionIdx))
    (insts : List Instruction) (lr : LabelIdx × Reloc) : List Instruction :=
  match labelPc labels lr.1 with
  | some pc => insts.modify (patchInst pc) lr.2.site
  | none => insts

/-- Applies all pending relocations in order. -/
def applyRelocs (labels : List (Option InstructionIdx))
    (relocs : List (LabelIdx × Reloc)) (insts : List Instruction) :
    List Instruction :=
  relocs.foldl (applyReloc labels) insts

/-- Modelled from the spec: `finish()` of the instruction builder
(`inst_builder.rs`, not among the provided sources). Spec section 4.1:
apply all pending relocations and return the finalized code slice; fail
(a translator bug) if any label is still unresolved. -/
def InstructionsBuilder.finish (b : InstructionsBuilder) :
    Except String (List Instruction) :=
  if b.labels.all Option.isSome then
    .ok (applyRelocs b.labels b.relocs b.insts)
  else
    .error "unresolved label at finish"

/-- A Wasm opcode, abstracted to the shape the reachability analysis needs:
structured-control delimiters, unconditional control transfers, and
everything else. -/
inductive WasmOp where
  | blockOp
  | loopOp
  | ifOp
  | elseOp
  | endOp
  | brOp (depth : Nat)
  | brIfOp (depth : Nat)
  | returnOp
  | unreachableOp
  | otherOp
deriving DecidableEq, Repr

/-- Whether the opcode is a structured-control delimiter (`Else` or `End`). -/
def WasmOp.isDelimiter : WasmOp → Bool
  | .elseOp => true
  | .endOp => true
  | _ => false

/-- Whether the opcode is an unconditional control transfer
(`br`, `return`, or `unreachable`). -/
def WasmOp.isTransfer : WasmOp → Bool
  | .brOp _ => true
  | .returnOp => true
  | .unreachableOp => true
  | _ => false

/-- Modelled from the spec: the effect of translating one opcode on the
`reachable` flag of the `FunctionBuilder`. The bodies of `translate_br`,
`translate_return`, `translate_unreachable`, `translate_else` and
`translate_end` are `todo!()` in the source, so this follows the source doc
comment on the `reachable` field ("Visiting the Wasm `Else` or `End` control
flow operator resets reachability to `true` again") and spec section 4.3:
an unconditional transfer sets `reachable` to `false`; while unreachable,
every opcode other than a delimiter is skipped and leaves the flag `false`;
`Else`/`End` reset it to `true`. -/
def reachableAfter (reachable : Bool) (op : WasmOp) : Bool :=
  if op.isDelimiter then true
  else if !reachable then false
  else if op.isTransfer then false
  else reachable

/-- Folds `reachableAfter` over an opcode sequence, first opcode first. -/
def reachableAfterSeq (reachable : Bool) (ops : List WasmOp) : Bool :=
  ops.foldl reachableAfter reachable

/-- Wrapping 32-bit addition: `i32.add` reduces modulo `2 ^ 32`. -/
def i32AddWrap (a b : Nat) : Nat :=
  (a + b) % 2 ^ 32

/-- Wrapping 64-bit addition: `i64.add` reduces modulo `2 ^ 64`. -/
def i64AddWrap (a b : Nat) : Nat :=
  (a + b) % 2 ^ 64

/-- The signed interpretation of a 64-bit machine word. -/
def toI64 (w : Nat) : Int :=
  if w < 2 ^ 63 then (w : Int) else (w : Int) - 2 ^ 64

/-- Modelled from the spec: a straight-line fragment of the execution loop
(spec section 4.4; the interpreter of `engine/inner/execute` is not among
the provided sources, only its tests are). The value stack is represented
top-first; the function's locals sit at the bottom, so local index `i`
refers to the `i`-th value counted from the bottom (`value_stack[fp + i]`
with `fp = 0` for a single activation). `Return(DropKeep)` keeps the top
`keep` values as the results. `none` models a trap or a stuck state. -/
def execStraight : List Instruction → List Nat → Option (List Nat)
  | .localGet i :: rest, st =>
    match st.get? (st.length - 1 - i) with
    | some v => execStraight rest (v :: st)
    | none => none
  | .i32Add :: rest, b :: a :: st => execStraight rest (i32AddWrap a b :: st)
  | .i32Const v :: rest, st => execStraight rest (v % 2 ^ 32 :: st)
  | .ret dropKeep :: _, st => some (st.take dropKeep.keep)
  | _, _ => none

/-- The code slice of the `add` function of the end-to-end test `test_add`
(`(i32, i32) -> i32`, body `local.get 0; local.get 1; i32.add`): push both
parameters, add, and return keeping the single result while dropping the
two locals underneath. -/
def addCode : List Instruction :=
  [.localGet 0, .localGet 1, .i32Add, .ret (DropKeep.new 2 1)]

/-- Calls the `add` function on two `i32` arguments: the locals are the
parameters, the operand stack starts empty above them, and the results are
whatever `Return` keeps. -/
def callAdd (x y : Nat) : Option (List Nat) :=
  execStraight addCode (List.reverse [x % 2 ^ 32, y % 2 ^ 32])

/-- Modelled from the spec: the trap codes of `wasmi_core` (`trap.rs`, not
among the provided sources; re-exported by `core/src/lib.rs` and listed in
spec section 3). -/
inductive TrapCode where
  | unreachableTrap
  | memoryAccessOutOfBounds
  | tableAccessOutOfBounds
  | elemUninitialized
  | divisionByZero
  | integerOverflow
  | invalidConversionToInt
  | stackOverflow
  | unexpectedSignature
deriving DecidableEq, Repr

/-- Sign-extension of a byte to a 64-bit machine word (`i64.load8_s`):
bytes `128..=255` become the two's-complement words of `-128..=-1`. -/
def signExtend8To64 (b : Nat) : Nat :=
  if b % 256 < 128 then b % 256 else 2 ^ 64 - 256 + b % 256

/-- Modelled from the spec: the `sum_bytes` function of the end-to-end test
`test_memory_sum` (its `memory-sum.wat` body and the execution loop are not
among the provided sources). It loops over the first `limit` bytes of
linear memory, loads each with `i64.load8_s` (sign-extending to `i64`,
after the bounds check `ea + 1 <= memSize`), and accumulates with wrapping
`i64.add`. -/
def sumBytes (mem : Nat → Nat) (memSize : Nat) : Nat → Except TrapCode Nat
  | 0 => .ok 0
  | n + 1 =>
    if n + 1 ≤ memSize then
      (sumBytes mem memSize n).map (fun acc => i64AddWrap acc (signExtend8To64 (mem n)))
    else
      .error .memoryAccessOutOfBounds

/-- The linear memory of `test_memory_sum` after `mem.write` of
`[u8::MAX; 100]` at offset 0: the first 100 bytes are `255`, the rest of
the one-page memory is zero. -/
def memSumInit : Nat → Nat :=
  fun i => if i < 100 then 255 else 0

/-- The expected value computed by the test harness itself
(`tests/mod.rs`, `test_memory_sum`): `data.iter().map(|byte| byte as i8 as
i64).sum()` — each byte reinterpreted as a signed 8-bit integer and summed
as a mathematical integer. -/
def byteAsI8 (b : Nat) : Int :=
  if b % 256 < 128 then (b % 256 : Int) else (b % 256 : Int) - 256

/-- The sum the test `test_memory_sum` expects for a given memory image. -/
def testExpectedSum (data : List Nat) : Int :=
  (data.map byteAsI8).sum

/-- An instance handle (`Instance`), opaque to the `Caller` embedding: the
claims about `Caller` hold for every behaviour of `Instance::get_export`,
which is abstracted as a function argument below. -/
structure Instance where
  idx : Nat
deriving DecidableEq, Repr

/-- The caller's context during a host call (`func/caller.rs`): the store
context (host state of type `T`) plus the optional calling instance, which
is `Some` exactly when the host call originates from a Wasm frame. -/
structure Caller (T : Type) where
  store : T
  inst : Option Instance

/-- Creates a new `Caller` from a store context and an optional instance
handle (`Caller::new`). -/
def Caller.new {T : Type} (store : T) (inst : Option Instance) : Caller T :=
  ⟨store, inst⟩

/-- The `From<&mut T> for Caller` conversion: a `Caller` built directly
from a store context carries no instance (`instance: None`). -/
def Caller.fromContext {T : Type} (store : T) : Caller T :=
  ⟨store, none⟩

/-- Queries the caller for an exported definition by name
(`Caller::get_export`): `self.instance.and_then(|instance|
instance.get_export(self, name))`. `Instance::get_export` is not among the
provided sources and is abstracted as the argument `instGetExport`; the
export type `Extern` is abstracted as `E`. -/
def Caller.get_export {T E : Type} (c : Caller T)
    (instGetExport : Instance → String → Option E) (name : String) : Option E :=
  c.inst.bind (fun inst => instGetExport inst name)

/-- Returns the host provided data (`Caller::host_data`). -/
def Caller.host_data {T : Type} (c : Caller T) : T :=
  c.store

/-! ### Shared helper lemmas -/

/-- Appending two elements and reading at the old length yields the first
appended element. -/
theorem get?_append_two {α : Type} (l : List α) (a c : α) :
    (l ++ [a, c]).get? l.length = some a := by
  rw [show l ++ [a, c] = (l ++ [a]) ++ [c] by simp]
  rw [List.get?_append (by simp)]
  exact List.get?_concat_length l a

/-- Setting the freshly appended slot overwrites only that slot. -/
theorem set_concat_length {α : Type} (l : List α) (a v : α) :
    (l ++ [a]).set l.length v = l ++ [v] := by
  induction l with
  | nil => rfl
  | cons x xs ih => simp [List.set, ih]

/-- A single builder operation never unbinds nor rebinds a resolved label. -/
theorem applyOp_preserves_resolved (ib : InstructionsBuilder) (op : BuilderOp)
    (l : LabelIdx) (pc : InstructionIdx)
    (h : ib.labels.get? l = some (some pc)) :
    (applyOp ib op).labels.get? l = some (some pc) := by
  cases op with
  | newLabel =>
    have hl : l < ib.labels.length := (List.get?_eq_some.mp h).choose
    show (ib.labels ++ [none]).get? l = some (some pc)
    rw [List.get?_append hl]
    exact h
  | resolveLabel l2 =>
    simp only [applyOp, InstructionsBuilder.resolve_label]
    split
    · next pc2 heq =>
      have hne : l2 ≠ l := by
        intro hcontra
        rw [hcontra, h] at heq
        cases heq
      rw [List.get?_eq_getElem?, List.getElem?_set_ne hne, ← List.get?_eq_getElem?]
      exact h
    · exact h
  | pushInst inst =>
    simpa [applyOp, InstructionsBuilder.push_inst] using h
  | tryResolve l2 reloc =>
    simp only [applyOp, InstructionsBuilder.try_resolve_label]
    split
    · exact h
    · exact h

/-- A sequence of builder operations never unbinds nor rebinds a resolved
label. -/
theorem applyOps_preserves_resolved (ops : List BuilderOp)
    (ib : InstructionsBuilder) (l : LabelIdx) (pc : InstructionIdx)
    (h : ib.labels.get? l = some (some pc)) :
    (applyOps ops ib).labels.get? l = some (some pc) := by
  induction ops generalizing ib with
  | nil => exact h
  | cons op rest ih =>
    exact ih (applyOp ib op) (applyOp_preserves_resolved ib op l pc h)

/-- Computes `translate_loop` in closed form: the fresh header label is
appended already resolved to the current PC, no instruction or relocation
is produced, and a `Loop` frame carrying the header is pushed. -/
theorem translate_loop_eq (b : FunctionBuilder) (bt : BlockType) :
    b.translate_loop bt =
      { b with
        inst_builder :=
          { b.inst_builder with
            labels := b.inst_builder.labels ++ [some b.inst_builder.insts.length] }
        control_frames :=
          b.control_frames.push_frame (.loop b.inst_builder.labels.length) } := by
  unfold FunctionBuilder.translate_loop
  simp only [InstructionsBuilder.new_label, InstructionsBuilder.resolve_label,
    InstructionsBuilder.current_pc]
  rw [List.get?_concat_length]
  rw [set_concat_length]

/-- Branching to a resolved label bakes its PC directly and registers no
relocation. -/
theorem try_resolve_resolved (ib : InstructionsBuilder) (l : LabelIdx)
    (pc : InstructionIdx) (reloc : Reloc)
    (h : ib.labels.get? l = some (some pc)) :
    ib.try_resolve_label l reloc = (pc, ib) := by
  unfold InstructionsBuilder.try_resolve_label
  rw [h]

/-! ### Claim theorems -/

/-- Claim C1 counterexample: `FunctionBuilder::new` leaves the control-frame
stack empty (length 0), not at length 1, so the returned translator does not
hold the implicit function-body frame. -/
theorem new_control_stack_counterexample :
    (FunctionBuilder.new 0).control_frames.len = 0 ∧
    ¬ (FunctionBuilder.new 0).control_frames.len = 1 := by
  constructor
  · rfl
  · intro h
    cases h

/-- Claim C1 (amended): for every function index, `FunctionBuilder::new`
returns a translator whose control-frame stack is the empty default stack —
the implicit function-body frame is not pushed by `new` — and whose
`reachable` flag is `true`. -/
theorem new_initial_state (func : FuncIdx) :
    (FunctionBuilder.new func).control_frames = ControlFlowStack.default ∧
    (FunctionBuilder.new func).control_frames.frames = [] ∧
    (FunctionBuilder.new func).reachable = true :=
  ⟨rfl, rfl, rfl⟩

/-- Claim C4: on every control flow stack, `nth_back_mut 0` agrees with
`last_mut`, and for every depth `d` below the stack length, `nth_back_mut d`
returns the `d`-th frame counted from the top, i.e. the frame stored at
position `len - 1 - d` from the bottom. -/
theorem nth_back_mut_spec (s : ControlFlowStack) :
    (0 < s.len → s.nth_back_mut 0 = s.last_mut) ∧
    (∀ d : Nat, d < s.len → s.nth_back_mut d = s.frames.get? (s.len - 1 - d)) := by
  constructor
  · intro _
    show s.frames.reverse.get? 0 = s.frames.getLast?
    rw [show s.frames.reverse.get? 0 = s.frames.reverse.head? by
      cases s.frames.reverse <;> rfl]
    exact List.head?_reverse s.frames
  · intro d hd
    show s.frames.reverse.get? d = s.frames.get? (s.frames.length - 1 - d)
    simp [List.get?_eq_getElem?, List.getElem?_reverse hd]

/-- Claim C4 witness: evaluated on the concrete two-frame stack
`[Block 0, Loop 1]`. -/
theorem nth_back_mut_spec_witness :
    ((ControlFlowStack.mk [.block 0, .loop 1]).nth_back_mut 0 =
      (ControlFlowStack.mk [.block 0, .loop 1]).last_mut) ∧
    ((ControlFlowStack.mk [.block 0, .loop 1]).nth_back_mut 1 =
      (ControlFlowStack.mk [.block 0, .loop 1]).frames.get? 0) :=
  ⟨(nth_back_mut_spec ⟨[.block 0, .loop 1]⟩).1 (by decide),
   (nth_back_mut_spec ⟨[.block 0, .loop 1]⟩).2 1 (by decide)⟩

/-- Claim C9: a `Caller` whose instance field is `None` — in particular any
`Caller` obtained through the `From<&mut T>` conversion — answers `None` to
`get_export` for every export name and every behaviour of
`Instance::get_export`. -/
theorem caller_no_instance_no_export {T E : Type} (c : Caller T)
    (h : c.inst = none) :
    (∀ instGetExport : Instance → String → Option E, ∀ name : String,
      c.get_export instGetExport name = none) ∧
    (∀ store : T, (Caller.fromContext store).inst = none) := by
  constructor
  · intro instGetExport name
    simp [Caller.get_export, h]
  · intro store
    rfl

/-- Claim C9 witness: the `Caller` built from a plain store context returns
no export even for an instance-export function that always answers. -/
theorem caller_no_instance_no_export_witness :
    (Caller.fromContext (37 : Nat)).get_export
      (fun _ _ => some (5 : Nat)) "memory" = none :=
  (caller_no_instance_no_export (Caller.fromContext (37 : Nat)) rfl).1
    (fun _ _ => some (5 : Nat)) "memory"

/-- Claim C10: `pop_frame` immediately after `push_frame f` returns exactly
`f` and the original stack, and `push_frame` always increases `len` by one
(it is total: it never fails). -/
theorem push_pop_roundtrip (s : ControlFlowStack) (f : ControlFrame) :
    (s.push_frame f).pop_frame = some (f, s) ∧
    (s.push_frame f).len = s.len + 1 := by
  constructor
  · simp [ControlFlowStack.push_frame, ControlFlowStack.pop_frame,
      List.getLast?_concat, List.dropLast_concat]
  · simp [ControlFlowStack.push_frame, ControlFlowStack.len]

/-- Claim C2: `translate_if` allocates exactly two fresh labels (else, end),
pushes exactly one `If` frame carrying them, emits exactly one instruction —
`BrIfEqz` with `DropKeep { drop = 0, keep = 0 }` whose target awaits the
else label through a freshly registered `Reloc::Br` at the emitted
instruction's index — and resolves no label (both new labels stay
unresolved and all previous label bindings are untouched). -/
theorem translate_if_spec (b : FunctionBuilder) (bt : BlockType) :
    (b.translate_if bt).inst_builder.labels =
      b.inst_builder.labels ++ [none, none] ∧
    (b.translate_if bt).control_frames.frames =
      b.control_frames.frames ++
        [.ifFrame b.inst_builder.labels.length (b.inst_builder.labels.length + 1)] ∧
    (b.translate_if bt).inst_builder.insts =
      b.inst_builder.insts ++
        [.brIfEqz (Target.new invalidPc (DropKeep.new 0 0))] ∧
    (b.translate_if bt).inst_builder.relocs =
      b.inst_builder.relocs ++
        [(b.inst_builder.labels.length, Reloc.br b.inst_builder.insts.length)] ∧
    (b.translate_if bt).reachable = b.reachable ∧
    (b.translate_if bt).value_stack = b.value_stack := by
  have hfresh :
      (b.inst_builder.labels ++ [none, none]).get? b.inst_builder.labels.length =
        some none := get?_append_two b.inst_builder.labels none none
  simp only [FunctionBuilder.translate_if, FunctionBuilder.try_resolve_label,
    InstructionsBuilder.new_label, InstructionsBuilder.try_resolve_label,
    InstructionsBuilder.push_inst, InstructionsBuilder.current_pc]
  split
  · next pc heq =>
    rw [show b.inst_builder.labels ++ [none] ++ [none] =
        b.inst_builder.labels ++ [none, none] by simp] at heq
    rw [hfresh] at heq
    cases heq
  · next heq =>
    simp [ControlFlowStack.push_frame]

/-- Claim C3: `translate_loop` allocates one fresh header label and resolves
it to the current PC before emitting any body instruction (the instruction
stream and relocation list are untouched), pushes exactly one `Loop` frame
carrying that header, and the header stays resolved to that PC under every
later sequence of instruction-builder operations, so any later backward
branch to it bakes the absolute PC directly without registering a
relocation. -/
theorem translate_loop_spec (b : FunctionBuilder) (bt : BlockType) :
    (b.translate_loop bt).inst_builder.labels =
      b.inst_builder.labels ++ [some b.inst_builder.insts.length] ∧
    (b.translate_loop bt).inst_builder.insts = b.inst_builder.insts ∧
    (b.translate_loop bt).inst_builder.relocs = b.inst_builder.relocs ∧
    (b.translate_loop bt).control_frames.frames =
      b.control_frames.frames ++ [.loop b.inst_builder.labels.length] ∧
    (∀ ops : List BuilderOp,
      (applyOps ops (b.translate_loop bt).inst_builder).labels.get?
          b.inst_builder.labels.length =
        some (some b.inst_builder.insts.length)) ∧
    (∀ ops : List BuilderOp, ∀ reloc : Reloc,
      (applyOps ops (b.translate_loop bt).inst_builder).try_resolve_label
          b.inst_builder.labels.length reloc =
        (b.inst_builder.insts.length, applyOps ops (b.translate_loop bt).inst_builder)) := by
  have heq := translate_loop_eq b bt
  refine ⟨by rw [heq], by rw [heq], by rw [heq],
    by rw [heq]; rfl, ?_, ?_⟩
  · intro ops
    refine applyOps_preserves_resolved ops _ _ _ ?_
    rw [heq]
    exact List.get?_concat_length b.inst_builder.labels
      (some b.inst_builder.insts.length)
  · intro ops reloc
    refine try_resolve_resolved _ _ _ reloc ?_
    refine applyOps_preserves_resolved ops _ _ _ ?_
    rw [heq]
    exact List.get?_concat_length b.inst_builder.labels
      (some b.inst_builder.insts.length)

/-- While code is unreachable, translating any non-delimiter opcode leaves
the `reachable` flag `false`. -/
theorem reachableAfterSeq_false (ops : List WasmOp)
    (hops : ∀ o ∈ ops, o.isDelimiter = false) :
    reachableAfterSeq false ops = false := by
  induction ops with
  | nil => rfl
  | cons op rest ih =>
    have hop : op.isDelimiter = false := hops op (by simp)
    have hstep : reachableAfter false op = false := by
      simp [reachableAfter, hop]
    show reachableAfterSeq (reachableAfter false op) rest = false
    rw [hstep]
    exact ih (fun o ho => hops o (by simp [ho]))

/-- Claim C6: from any reachability state, translating an unconditional
control transfer (`br`, `return`, or `unreachable`) drives the `reachable`
flag to `false`; it stays `false` across every following sequence of
non-delimiter opcodes; and the next `Else` or `End` opcode resets it to
`true`. -/
theorem reachable_after_transfer (r : Bool) (op : WasmOp)
    (h : op.isTransfer = true) (ops : List WasmOp)
    (hops : ∀ o ∈ ops, o.isDelimiter = false)
    (d : WasmOp) (hd : d.isDelimiter = true) :
    reachableAfter r op = false ∧
    reachableAfterSeq (reachableAfter r op) ops = false ∧
    reachableAfter (reachableAfterSeq (reachableAfter r op) ops) d = true := by
  have hnd : op.isDelimiter = false := by
    cases op <;> first | rfl | cases h
  have h1 : reachableAfter r op = false := by
    cases r <;> simp [reachableAfter, hnd, h]
  refine ⟨h1, ?_, ?_⟩
  · rw [h1]
    exact reachableAfterSeq_false ops hops
  · simp [reachableAfter, hd]

/-- Claim C6 witness: after `br 0`, the flag is `false`, stays `false`
through two more non-delimiter opcodes, and the following `end` resets it
to `true`. -/
theorem reachable_after_transfer_witness :
    reachableAfter true (.brOp 0) = false ∧
    reachableAfterSeq (reachableAfter true (.brOp 0)) [.otherOp, .brIfOp 1] = false ∧
    reachableAfter
      (reachableAfterSeq (reachableAfter true (.brOp 0)) [.otherOp, .brIfOp 1])
      .endOp = true :=
  reachable_after_transfer true (.brOp 0) rfl [.otherOp, .brIfOp 1]
    (by decide) .endOp rfl

/-- Claim C7: calling the exported `add` function of signature
`(i32, i32) -> i32` with body `local.get 0; local.get 1; i32.add` on the
arguments `1` and `2` succeeds and produces the single result `3`. -/
theorem call_add_one_two :
    callAdd 1 2 = some [3] := by
  decide

set_option maxRecDepth 10000 in
/-- Claim C8: with the first 100 bytes of linear memory initialised to
`u8::MAX`, `sum_bytes(100)` succeeds and returns the 64-bit word whose
signed interpretation is `-100` — each byte is sign-extended to `i64`
before being accumulated — matching the sum the test harness itself
computes (`byte as i8 as i64`, summed). -/
theorem sum_bytes_all_max :
    sumBytes memSumInit 65536 100 = .ok (2 ^ 64 - 100) ∧
    toI64 (2 ^ 64 - 100) = -100 ∧
    testExpectedSum (List.replicate 100 255) = -100 := by
  refine ⟨by rfl, by decide, by decide⟩

/-- Applying one relocation leaves every other instruction slot unchanged. -/
theorem applyReloc_get?_ne (labels : List (Option InstructionIdx))
    (insts : List Instruction) (lr : LabelIdx × Reloc) (i : Nat)
    (h : lr.2.site ≠ i) :
    (applyReloc labels insts lr).get? i = insts.get? i := by
  unfold applyReloc
  split
  · rw [List.get?_eq_getElem?, List.get?_eq_getElem?]
    exact List.getElem?_modify_ne _ insts h
  · rfl

/-- Applying one relocation whose label has resolved patches exactly its
site with the resolved PC. -/
theorem applyReloc_get?_eq (labels : List (Option InstructionIdx))
    (insts : List Instruction) (lr : LabelIdx × Reloc) (pc : InstructionIdx)
    (hpc : labelPc labels lr.1 = some pc) :
    (applyReloc labels insts lr).get? lr.2.site =
      (insts.get? lr.2.site).map (patchInst pc) := by
  unfold applyReloc
  rw [hpc]
  rw [List.get?_eq_getElem?, List.get?_eq_getElem?]
  rw [List.getElem?_modify_eq]
  rfl

/-- A slot no pending relocation points at survives the whole relocation
pass untouched. -/
theorem applyRelocs_get?_of_not_mem (labels : List (Option InstructionIdx))
    (relocs : List (LabelIdx × Reloc)) (insts : List Instruction) (i : Nat)
    (h : ∀ lr ∈ relocs, lr.2.site ≠ i) :
    (applyRelocs labels relocs insts).get? i = insts.get? i := by
  induction relocs generalizing insts with
  | nil => rfl
  | cons hd tl ih =>
    show (applyRelocs labels tl (applyReloc labels insts hd)).get? i = insts.get? i
    rw [ih (applyReloc labels insts hd) (fun lr hlr => h lr (by simp [hlr]))]
    exact applyReloc_get?_ne labels insts hd i (h hd (by simp))

/-- When the pending relocations target pairwise distinct instruction
slots, the relocation pass patches each registered use-site with the PC its
label resolved to. -/
theorem applyRelocs_applied (labels : List (Option InstructionIdx))
    (relocs : List (LabelIdx × Reloc)) (insts : List Instruction)
    (hnd : (relocs.map (fun lr => lr.2.site)).Nodup)
    (lr : LabelIdx × Reloc) (hmem : lr ∈ relocs) (pc : InstructionIdx)
    (hpc : labelPc labels lr.1 = some pc) :
    (applyRelocs labels relocs insts).get? lr.2.site =
      (insts.get? lr.2.site).map (patchInst pc) := by
  induction relocs generalizing insts with
  | nil => cases hmem
  | cons hd tl ih =>
    have hnd' : (tl.map (fun lr => lr.2.site)).Nodup := hnd.of_cons
    have hhd : hd.2.site ∉ tl.map (fun lr => lr.2.site) :=
      (List.nodup_cons.mp hnd).1
    rcases List.mem_cons.mp hmem with hEq | hTl
    · cases hEq
      show (applyRelocs labels tl (applyReloc labels insts lr)).get? lr.2.site =
        (insts.get? lr.2.site).map (patchInst pc)
      rw [applyRelocs_get?_of_not_mem labels tl (applyReloc labels insts lr)
        lr.2.site
        (fun lr2 hlr2 hsite => hhd (by
          rw [← hsite]
          exact List.mem_map.mpr ⟨lr2, hlr2, rfl⟩))]
      exact applyReloc_get?_eq labels insts lr pc hpc
    · have hne : hd.2.site ≠ lr.2.site := by
        intro hcontra
        exact hhd (hcontra ▸ List.mem_map.mpr ⟨lr, hTl, rfl⟩)
      show (applyRelocs labels tl (applyReloc labels insts hd)).get? lr.2.site =
        (insts.get? lr.2.site).map (patchInst pc)
      rw [ih (applyReloc labels insts hd) hnd' hTl]
      rw [applyReloc_get?_ne labels insts hd lr.2.site hne]

/-- Claim C5: when `finish()` succeeds, every label is resolved and — for
pending relocations registered at pairwise distinct use-sites, each tied
to an allocated label — every relocation has been applied: the instruction
at its site carries the resolved PC of its label, so no emitted
instruction is left referencing an unresolved label. Conversely, `finish()`
fails whenever some label is still unresolved. -/
theorem finish_spec (ib : InstructionsBuilder) :
    (∀ code, ib.finish = .ok code →
      (∀ e ∈ ib.labels, e.isSome = true) ∧
      ((ib.relocs.map (fun lr => lr.2.site)).Nodup →
        ∀ lr ∈ ib.relocs, lr.1 < ib.labels.length →
          ∃ pc, labelPc ib.labels lr.1 = some pc ∧
            code.get? lr.2.site = (ib.insts.get? lr.2.site).map (patchInst pc))) ∧
    ((∃ e ∈ ib.labels, e = none) → ∃ msg, ib.finish = .error msg) := by
  constructor
  · intro code hok
    have hall : ib.labels.all Option.isSome = true := by
      by_contra hcontra
      unfold InstructionsBuilder.finish at hok
      rw [if_neg hcontra] at hok
      cases hok
    have hcode : code = applyRelocs ib.labels ib.relocs ib.insts := by
      unfold InstructionsBuilder.finish at hok
      rw [if_pos hall] at hok
      cases hok
      rfl
    have hres : ∀ e ∈ ib.labels, e.isSome = true := by
      intro e he
      exact List.all_eq_true.mp hall e he
    refine ⟨hres, ?_⟩
    intro hnd lr hmem hlt
    have hget := List.get?_eq_get (l := ib.labels) hlt
    have hmem' : ib.labels.get ⟨lr.1, hlt⟩ ∈ ib.labels :=
      List.get_mem ib.labels lr.1 hlt
    obtain ⟨pc, hpc⟩ := Option.isSome_iff_exists.mp (hres _ hmem')
    have hlook : ib.labels.get? lr.1 = some (some pc) := by
      rw [hget, hpc]
    have hlabelpc : labelPc ib.labels lr.1 = some pc := by
      unfold labelPc
      rw [hlook]
      rfl
    refine ⟨pc, hlabelpc, ?_⟩
    rw [hcode]
    exact applyRelocs_applied ib.labels ib.relocs ib.insts hnd lr hmem pc hlabelpc
  · intro hnone
    obtain ⟨e, hmem, hnone'⟩ := hnone
    refine ⟨"unresolved label at finish", ?_⟩
    unfold InstructionsBuilder.finish
    rw [if_neg ?_]
    intro hall
    have := List.all_eq_true.mp hall e hmem
    rw [hnone'] at this
    cases this

/-- Claim C5 witness: a builder with one resolved label and one pending
branch relocation finishes successfully with the branch patched to the
resolved PC, while a builder with an unresolved label fails to finish. -/
theorem finish_spec_witness :
    (∃ pc, labelPc [some 5] 0 = some pc ∧
      [Instruction.br (Target.new 5 (DropKeep.new 1 2))].get? 0 =
        ([Instruction.br (Target.new invalidPc (DropKeep.new 1 2))].get? 0).map
          (patchInst pc)) ∧
    (∃ msg,
      (InstructionsBuilder.mk [] [none] []).finish = .error msg) := by
  constructor
  · exact ((finish_spec
      ⟨[.br (Target.new invalidPc (DropKeep.new 1 2))], [some 5],
        [(0, .br 0)]⟩).1
      [.br (Target.new 5 (DropKeep.new 1 2))] (by rfl)).2
      (by decide) (0, .br 0) (by decide) (by decide)
  · exact (finish_spec ⟨[], [none], []⟩).2 ⟨none, by decide, rfl⟩

end Wasmi
